import Mathlib

/-!
Verification of the Obsidian quantum-simulation core.

Shallow embedding of `src/lib/quantum/core.ts` (class QuantumProcessor),
`src/lib/quantum/algorithms.ts` (class QuantumAlgorithms),
`src/lib/quantum/optimization.ts` (class QuantumOptimizer) and
`src/lib/ai/quantum-ai.ts` (class QuantumAI).  JavaScript numbers are
modelled as real numbers; the ambient `Math.random()` source is modelled
as an explicit stream `r : ℕ → ℝ` together with a cursor that each draw
advances by one.
-/

namespace Obsidian

noncomputable section

/-! ### Complex arithmetic (interface Complex of src/types/quantum.ts) -/

/-- The source's two-component complex value `{ real, imag }`. -/
structure Complex where
  real : ℝ
  imag : ℝ

theorem Complex.ext_iff' {a b : Complex} : a = b ↔ a.real = b.real ∧ a.imag = b.imag := by
  cases a; cases b; simp

/-- `addComplex` of class QuantumAlgorithms. -/
def addComplex (a b : Complex) : Complex :=
  ⟨a.real + b.real, a.imag + b.imag⟩

/-- `subtractComplex` of class QuantumAlgorithms. -/
def subtractComplex (a b : Complex) : Complex :=
  ⟨a.real - b.real, a.imag - b.imag⟩

/-- `multiplyComplex` of class QuantumAlgorithms. -/
def multiplyComplex (a b : Complex) : Complex :=
  ⟨a.real * b.real - a.imag * b.imag, a.real * b.imag + a.imag * b.real⟩

/-- `scaleComplex` of class QuantumAlgorithms. -/
def scaleComplex (a : Complex) (scalar : ℝ) : Complex :=
  ⟨a.real * scalar, a.imag * scalar⟩

/-! ### Teleportation corrections (class QuantumAlgorithms) -/

/-- `pauliX` of class QuantumAlgorithms: swaps real and imaginary parts. -/
def pauliX (qubit : Complex) : Complex :=
  ⟨qubit.imag, qubit.real⟩

/-- `pauliZ` of class QuantumAlgorithms: negates the imaginary part. -/
def pauliZ (qubit : Complex) : Complex :=
  ⟨qubit.real, -qubit.imag⟩

/-- `applyTeleportationCorrections`: the measurement pair drives a
Pauli-X-like correction (when the second bit is set) followed by a
Pauli-Z-like correction (when the first bit is set).  The source's
`[number, number]` measurements are used only through JavaScript
truthiness, modelled by `Bool`. -/
def applyTeleportationCorrections (qubit : Complex) (measurements : Bool × Bool) : Complex :=
  let c1 := if measurements.2 then pauliX qubit else qubit
  if measurements.1 then pauliZ c1 else c1

/-- C3 counterexample: with both measurement bits set, applying the
correction step twice to the qubit (1, 2) yields (-1, -2), not the
original value. -/
theorem C3_counterexample :
    applyTeleportationCorrections
      (applyTeleportationCorrections ⟨1, 2⟩ (true, true)) (true, true) ≠ (⟨1, 2⟩ : Complex) := by
  simp [applyTeleportationCorrections, pauliX, pauliZ, Complex.ext_iff']
  norm_num

/-- C3 (amended): applying the teleportation correction step twice returns
the original qubit whenever at most one of the two measurement bits is set;
when both bits are set it returns the negated qubit (the X-then-Z
composition is not an involution, its square is minus the identity). -/
theorem C3_corrections_self_inverse (q : Complex) (m : Bool × Bool) :
    applyTeleportationCorrections (applyTeleportationCorrections q m) m =
      if m.1 && m.2 then ⟨-q.real, -q.imag⟩ else q := by
  obtain ⟨m1, m2⟩ := m
  cases m1 <;> cases m2 <;>
    simp [applyTeleportationCorrections, pauliX, pauliZ]

/-! ### List access helpers used throughout the embedding -/

/-- Read entry (i, j) of a list-of-lists matrix, with the zero complex as the
out-of-range default. -/
def getC (m : List (List Complex)) (i j : ℕ) : Complex :=
  (m.getD i []).getD j ⟨0, 0⟩

theorem getD_of_lt {α : Type} (l : List α) (i : ℕ) (d : α) (h : i < l.length) :
    l.getD i d = l.get ⟨i, h⟩ := by
  rw [List.getD_eq_getElem?_getD, List.getElem?_eq_getElem h]
  rfl

theorem getD_map_of_lt {α β : Type} (f : α → β) (l : List α) (i : ℕ) (d : β)
    (h : i < l.length) : (l.map f).getD i d = f (l.get ⟨i, h⟩) := by
  rw [List.getD_eq_getElem?_getD, List.getElem?_map, List.getElem?_eq_getElem h]
  rfl

theorem getD_map_range {α : Type} (f : ℕ → α) (n i : ℕ) (d : α) (h : i < n) :
    ((List.range n).map f).getD i d = f i := by
  rw [List.getD_eq_getElem?_getD, List.getElem?_map, List.getElem?_range h]
  rfl

theorem getD_enum_map {α β : Type} (g : ℕ → α → β) (l : List α) (i : ℕ) (d : β)
    (h : i < l.length) :
    ((l.enum.map fun p => g p.1 p.2).getD i d) = g i (l.get ⟨i, h⟩) := by
  rw [List.getD_eq_getElem?_getD, List.getElem?_map, List.getElem?_enum,
    List.getElem?_eq_getElem h]
  rfl

theorem foldl_add_range (f : ℕ → ℝ) : ∀ (n : ℕ) (a : ℝ),
    (List.range n).foldl (fun acc j => acc + f j) a = a + ∑ j in Finset.range n, f j := by
  intro n
  induction n with
  | zero => intro a; simp
  | succ n ih =>
    intro a
    rw [List.range_succ, List.foldl_append, ih, Finset.sum_range_succ]
    simp [add_assoc]

/-! ### Quantum natural gradient (class QuantumOptimizer, src/lib/quantum/optimization.ts) -/

/-- `LEARNING_RATE` constant of class QuantumOptimizer. -/
def LEARNING_RATE : ℝ := 0.01

/-- `regularizeQuantumFisher`: adds epsilon = 1e-5 to the real part of every
entry of the Fisher matrix. -/
def regularizeQuantumFisher (fisher : List (List Complex)) : List (List Complex) :=
  fisher.map fun row => row.map fun element => ⟨element.real + 1e-5, element.imag⟩

/-- `inverseMatrix`: the source's simplified inversion — a zero matrix whose
diagonal holds 1 / matrix[i][i].real. -/
def inverseMatrix (matrix : List (List Complex)) : List (List Complex) :=
  (List.range matrix.length).map fun i =>
    (List.range matrix.length).map fun j =>
      if j = i then ⟨1 / (getC matrix i i).real, 0⟩ else ⟨0, 0⟩

/-- `quantumNaturalGradient`: regularize the Fisher matrix, take its simplified
inverse, and move each parameter by minus the learning rate times the i-th row
of inverse·gradient. -/
def quantumNaturalGradient (parameters : List ℝ) (quantumFisher : List (List Complex))
    (gradient : List ℝ) : List ℝ :=
  let regularized := regularizeQuantumFisher quantumFisher
  let inverse := inverseMatrix regularized
  parameters.enum.map fun p =>
    p.2 - LEARNING_RATE *
      ((List.range gradient.length).foldl
        (fun update j => update + (getC inverse p.1 j).real * gradient.getD j 0) 0)

/-! ### QAOA optimization (class QuantumOptimizer) -/

/-- `MAX_ITERATIONS` constant of class QuantumOptimizer. -/
def MAX_ITERATIONS : ℕ := 1000

/-- `CONVERGENCE_THRESHOLD` constant of class QuantumOptimizer. -/
def CONVERGENCE_THRESHOLD : ℝ := 1e-6

/-- `initializeRandomParameters`: `count` draws mapped to (u - 0.5)·2·π. -/
def initRandomParameters (count : ℕ) (r : ℕ → ℝ) : List ℝ :=
  (List.range count).map fun k => (r k - 0.5) * 2 * Real.pi

/-- `evaluateQAOAObjective`: the simplified closed-form objective
Σ cos(pᵢ)·(i % 2 ? 1 : -1) and its gradient; the Hamiltonians and depth are
accepted but unused, as in the source. -/
def evaluateQAOAObjective (parameters : List ℝ) (costH mixingH : List (List Complex))
    (depth : ℕ) : ℝ × List ℝ :=
  let energy := parameters.enum.foldl
    (fun acc p => acc + Real.cos p.2 * (if p.1 % 2 = 1 then 1 else -1)) 0
  let gradient := parameters.enum.map
    fun p => -Real.sin p.2 * (if p.1 % 2 = 1 then 1 else -1)
  (energy, gradient)

/-- `updateParameters`: plain gradient descent with the fixed learning rate. -/
def updateParameters (parameters gradient : List ℝ) : List ℝ :=
  parameters.enum.map fun p => p.2 - LEARNING_RATE * gradient.getD p.1 0

/-- The `while` loop of `optimizeQAOA`, by recursion on the remaining
iteration budget.  The JavaScript `currentEnergy = Infinity` start value is
modelled by `none`: `Math.abs(energy - Infinity) < 1e-6` is false for every
finite energy, exactly as the `none` branch below never breaks. -/
def qaoaLoop (costH mixingH : List (List Complex)) (depth : ℕ) :
    ℕ → List ℝ → Option ℝ → List ℝ × Option ℝ
  | 0, parameters, currentEnergy => (parameters, currentEnergy)
  | fuel + 1, parameters, currentEnergy =>
    let eg := evaluateQAOAObjective parameters costH mixingH depth
    match currentEnergy with
    | some c =>
      if |eg.1 - c| < CONVERGENCE_THRESHOLD then (parameters, some c)
      else qaoaLoop costH mixingH depth fuel (updateParameters parameters eg.2) (some eg.1)
    | none => qaoaLoop costH mixingH depth fuel (updateParameters parameters eg.2) (some eg.1)

/-- `optimizeQAOA`: random initial parameters of length 2·depth, then the
bounded descent loop. -/
def optimizeQAOA (costHamiltonian mixingHamiltonian : List (List Complex)) (depth : ℕ)
    (r : ℕ → ℝ) : List ℝ × Option ℝ :=
  qaoaLoop costHamiltonian mixingHamiltonian depth MAX_ITERATIONS
    (initRandomParameters (2 * depth) r) none

/-! ### Imaginary time evolution (class QuantumOptimizer) -/

/-- `evolveState`: the source's `state.map((_, i) => state.reduce(...))`; note
the reduction starts from the zero complex, so the result REPLACES each entry
with Σⱼ H[i][j]·state[j]·dt rather than adding to it. -/
def evolveState (state : List Complex) (hamiltonian : List (List Complex)) (dt : ℝ) :
    List Complex :=
  state.enum.map fun p =>
    state.enum.foldl
      (fun acc q =>
        ⟨acc.real + ((getC hamiltonian p.1 q.1).real * q.2.real -
            (getC hamiltonian p.1 q.1).imag * q.2.imag) * dt,
         acc.imag + ((getC hamiltonian p.1 q.1).real * q.2.imag +
            (getC hamiltonian p.1 q.1).imag * q.2.real) * dt⟩)
      ⟨0, 0⟩

/-- `normalizeState`: divide every component by the Euclidean norm. -/
def normalizeState (state : List Complex) : List Complex :=
  let norm := Real.sqrt
    (state.foldl (fun acc s => acc + s.real * s.real + s.imag * s.imag) 0)
  state.map fun s => ⟨s.real / norm, s.imag / norm⟩

/-- The `for` loop of `imaginaryTimeEvolution`. -/
def imaginaryTimeEvolutionAux (hamiltonian : List (List Complex)) (dt : ℝ) :
    ℕ → List Complex → List Complex
  | 0, state => state
  | step + 1, state =>
    imaginaryTimeEvolutionAux hamiltonian dt step (normalizeState (evolveState state hamiltonian dt))

/-- `imaginaryTimeEvolution`: dt = evolutionTime / timeSteps, then timeSteps
rounds of evolve-and-normalize. -/
def imaginaryTimeEvolution (hamiltonian : List (List Complex)) (initialState : List Complex)
    (evolutionTime : ℝ) (timeSteps : ℕ) : List Complex :=
  imaginaryTimeEvolutionAux hamiltonian (evolutionTime / timeSteps) timeSteps initialState

/-- Complex sum of a list (Σ rendered as a fold with `addComplex`). -/
def csum (l : List Complex) : Complex :=
  l.foldr addComplex ⟨0, 0⟩

/-- Modelled from the claim wording of C2: one Euler step that ACCUMULATES,
state[i] += Σⱼ H[i][j]·state[j]·dt (complex multiply). -/
def eulerAccumStep (hamiltonian : List (List Complex)) (dt : ℝ)
    (state : List Complex) : List Complex :=
  state.enum.map fun p =>
    addComplex p.2
      (csum (state.enum.map fun q =>
        scaleComplex (multiplyComplex (getC hamiltonian p.1 q.1) q.2) dt))

/-- The replacement Euler step: state[i] is REPLACED by
Σⱼ H[i][j]·state[j]·dt (complex multiply). -/
def eulerReplaceStep (hamiltonian : List (List Complex)) (dt : ℝ)
    (state : List Complex) : List Complex :=
  state.enum.map fun p =>
    csum (state.enum.map fun q =>
      scaleComplex (multiplyComplex (getC hamiltonian p.1 q.1) q.2) dt)

theorem evolveState_eq_eulerReplaceStep (state : List Complex)
    (hamiltonian : List (List Complex)) (dt : ℝ) :
    evolveState state hamiltonian dt = eulerReplaceStep hamiltonian dt state := by
  have key : ∀ (i : ℕ) (l : List (ℕ × Complex)) (acc : Complex),
      l.foldl
        (fun acc q =>
          (⟨acc.real + ((getC hamiltonian i q.1).real * q.2.real -
              (getC hamiltonian i q.1).imag * q.2.imag) * dt,
           acc.imag + ((getC hamiltonian i q.1).real * q.2.imag +
              (getC hamiltonian i q.1).imag * q.2.real) * dt⟩ : Complex))
        acc =
      addComplex acc
        (csum (l.map fun q =>
          scaleComplex (multiplyComplex (getC hamiltonian i q.1) q.2) dt)) := by
    intro i l
    induction l with
    | nil => intro acc; simp [csum, addComplex]
    | cons q l ih =>
      intro acc
      rw [List.foldl_cons, ih, List.map_cons]
      simp only [csum, List.foldr_cons, addComplex, scaleComplex, multiplyComplex,
        Complex.ext_iff']
      constructor <;> ring
  unfold evolveState eulerReplaceStep
  refine List.map_congr_left ?_
  intro p _
  rw [key p.1 state.enum ⟨0, 0⟩]
  simp [addComplex]

theorem imaginaryTimeEvolutionAux_eq_iterate (hamiltonian : List (List Complex)) (dt : ℝ) :
    ∀ (n : ℕ) (state : List Complex),
      imaginaryTimeEvolutionAux hamiltonian dt n state =
        (fun st => normalizeState (eulerReplaceStep hamiltonian dt st))^[n] state := by
  intro n
  induction n with
  | zero => intro state; simp [imaginaryTimeEvolutionAux]
  | succ n ih =>
    intro state
    rw [imaginaryTimeEvolutionAux, ih, Function.iterate_succ_apply,
      evolveState_eq_eulerReplaceStep]

/-! ### C7: the quantum natural gradient step -/

theorem regularize_diag (F : List (List Complex)) (n : ℕ) (hF : F.length = n)
    (hrow : ∀ row ∈ F, row.length = n) (i : ℕ) (hi : i < n) :
    getC (regularizeQuantumFisher F) i i = ⟨(getC F i i).real + 1e-5, (getC F i i).imag⟩ := by
  have hiF : i < F.length := by omega
  have hrowlen : (F.get ⟨i, hiF⟩).length = n := hrow _ (F.get_mem i hiF)
  have hirow : i < (F.get ⟨i, hiF⟩).length := by omega
  rw [getC, getC, regularizeQuantumFisher, getD_map_of_lt _ _ _ _ hiF,
    getD_map_of_lt _ _ _ _ hirow, getD_of_lt _ _ _ hiF, getD_of_lt _ _ _ hirow]

theorem inverseMatrix_entry (m : List (List Complex)) (i j : ℕ) (hi : i < m.length)
    (hj : j < m.length) :
    getC (inverseMatrix m) i j =
      if j = i then ⟨1 / (getC m i i).real, 0⟩ else ⟨0, 0⟩ := by
  rw [getC, inverseMatrix, getD_map_range _ _ _ _ hi, getD_map_range _ _ _ _ hj]

/-- C7: for parameters p, a square Fisher matrix F of matching dimension and a
gradient g of the same length, quantumNaturalGradient returns
p[i] − 0.01·g[i]/(F[i][i].real + 1e−5) in position i; the simplified inverse
of the regularized Fisher matrix carries 1/(regularized diagonal real part) on
the diagonal and zero elsewhere, so only the j = i term contributes. -/
theorem C7_quantumNaturalGradient (p : List ℝ) (F : List (List Complex)) (g : List ℝ)
    (hF : F.length = p.length) (hrow : ∀ row ∈ F, row.length = p.length)
    (hg : g.length = p.length) (i : ℕ) (hi : i < p.length) :
    (quantumNaturalGradient p F g).getD i 0 =
      p.getD i 0 - 0.01 * g.getD i 0 / ((getC F i i).real + 1e-5) ∧
    (∀ j, j < p.length →
      getC (inverseMatrix (regularizeQuantumFisher F)) i j =
        if j = i then ⟨1 / ((getC F i i).real + 1e-5), 0⟩ else ⟨0, 0⟩) := by
  have hreglen : (regularizeQuantumFisher F).length = p.length := by
    rw [regularizeQuantumFisher, List.length_map, hF]
  have hdiag := regularize_diag F p.length hF hrow i hi
  have hinv : ∀ j, j < p.length →
      getC (inverseMatrix (regularizeQuantumFisher F)) i j =
        if j = i then ⟨1 / ((getC F i i).real + 1e-5), 0⟩ else ⟨0, 0⟩ := by
    intro j hj
    rw [inverseMatrix_entry _ _ _ (by omega : i < (regularizeQuantumFisher F).length)
      (by omega : j < (regularizeQuantumFisher F).length), hdiag]
  refine ⟨?_, hinv⟩
  rw [quantumNaturalGradient]
  rw [getD_enum_map
    (fun idx x => x - LEARNING_RATE *
      (List.foldl
        (fun update j =>
          update + (getC (inverseMatrix (regularizeQuantumFisher F)) idx j).real * g.getD j 0)
        0 (List.range g.length)))
    p i 0 hi, foldl_add_range, zero_add]
  have hsum :
      (∑ j in Finset.range g.length,
        (getC (inverseMatrix (regularizeQuantumFisher F)) i j).real * g.getD j 0) =
        (1 / ((getC F i i).real + 1e-5)) * g.getD i 0 := by
    have hterm : ∀ j ∈ Finset.range g.length,
        (getC (inverseMatrix (regularizeQuantumFisher F)) i j).real * g.getD j 0 =
          if j = i then (1 / ((getC F i i).real + 1e-5)) * g.getD j 0 else 0 := by
      intro j hj
      rw [Finset.mem_range] at hj
      rw [hinv j (by omega)]
      by_cases hji : j = i <;> simp [hji]
    rw [Finset.sum_congr rfl hterm, Finset.sum_ite_eq' (Finset.range g.length) i
      (fun j => (1 / ((getC F i i).real + 1e-5)) * g.getD j 0)]
    simp [Finset.mem_range, hg ▸ hi]
  rw [hsum, getD_of_lt p i 0 hi, LEARNING_RATE]
  ring

/-- C7 witness: a concrete 2-parameter instance of the theorem. -/
theorem C7_witness :
    (quantumNaturalGradient [1, 2] [[⟨1, 0⟩, ⟨5, 3⟩], [⟨7, 1⟩, ⟨2, 0⟩]] [10, 20]).getD 1 0 =
      ([(1 : ℝ), 2]).getD 1 0 -
        0.01 * ([(10 : ℝ), 20]).getD 1 0 /
          ((getC [[⟨1, 0⟩, ⟨5, 3⟩], [⟨7, 1⟩, ⟨2, 0⟩]] 1 1).real + 1e-5) := by
  have h := C7_quantumNaturalGradient [1, 2] [[⟨1, 0⟩, ⟨5, 3⟩], [⟨7, 1⟩, ⟨2, 0⟩]] [10, 20]
    (by simp) ?_ (by simp) 1 (by simp)
  · exact h.1
  · intro row hr
    simp only [List.mem_cons, List.not_mem_nil, or_false] at hr
    rcases hr with h1 | h1 <;> simp [h1]

/-! ### C8: the QAOA optimization loop -/

theorem updateParameters_length (p g : List ℝ) : (updateParameters p g).length = p.length := by
  simp [updateParameters, List.enum_length]

theorem qaoaEnergyAux_bound : ∀ (l : List (ℕ × ℝ)) (a : ℝ),
    |l.foldl (fun acc p => acc + Real.cos p.2 * (if p.1 % 2 = 1 then 1 else -1)) a| ≤
      |a| + l.length := by
  intro l
  induction l with
  | nil => intro a; simp
  | cons q l ih =>
    intro a
    rw [List.foldl_cons]
    refine le_trans (ih _) ?_
    have hstep : |a + Real.cos q.2 * (if q.1 % 2 = 1 then 1 else -1)| ≤ |a| + 1 := by
      refine le_trans (abs_add _ _) ?_
      have h2 : |Real.cos q.2 * (if q.1 % 2 = 1 then (1 : ℝ) else -1)| ≤ 1 := by
        rw [abs_mul]
        have h3 : |(if q.1 % 2 = 1 then (1 : ℝ) else -1)| = 1 := by split <;> simp
        rw [h3, mul_one]
        exact Real.abs_cos_le_one q.2
      linarith
    have hlen : ((q :: l).length : ℝ) = l.length + 1 := by push_cast [List.length_cons]; ring
    rw [hlen]
    linarith

theorem evaluateQAOAObjective_energy_bound (p : List ℝ) (C M : List (List Complex)) (d : ℕ) :
    |(evaluateQAOAObjective p C M d).1| ≤ p.length := by
  have h := qaoaEnergyAux_bound p.enum 0
  simpa [evaluateQAOAObjective, List.enum_length] using h

theorem qaoaLoop_length (C M : List (List Complex)) (d : ℕ) :
    ∀ (fuel : ℕ) (p : List ℝ) (cur : Option ℝ),
      (qaoaLoop C M d fuel p cur).1.length = p.length := by
  intro fuel
  induction fuel with
  | zero => intro p cur; rfl
  | succ fuel ih =>
    intro p cur
    cases cur with
    | none => rw [qaoaLoop, ih, updateParameters_length]
    | some c =>
      rw [qaoaLoop]
      split
      · rfl
      · rw [ih, updateParameters_length]

theorem qaoaLoop_some_bound (C M : List (List Complex)) (d : ℕ) (n : ℕ) :
    ∀ (fuel : ℕ) (p : List ℝ) (e : ℝ), p.length = n → |e| ≤ n →
      ∃ e2, (qaoaLoop C M d fuel p (some e)).2 = some e2 ∧ |e2| ≤ n := by
  intro fuel
  induction fuel with
  | zero => intro p e _ he; exact ⟨e, rfl, he⟩
  | succ fuel ih =>
    intro p e hp he
    rw [qaoaLoop]
    split
    · exact ⟨e, rfl, he⟩
    · refine ih _ _ (by rw [updateParameters_length, hp]) ?_
      calc |(evaluateQAOAObjective p C M d).1| ≤ p.length :=
            evaluateQAOAObjective_energy_bound p C M d
        _ = n := by rw [hp]

/-- C8: optimizeQAOA at depth 2 (for any cost and mixing Hamiltonians and any
random draws) returns a parameter vector of length 4 = 2·depth and a defined
(finite) energy with |energy| ≤ 4; the loop runs at most the MAX_ITERATIONS
= 1000 budget baked into its fuel, declares convergence when the objective
changes by less than 1e−6, and updates parameters with learning rate 0.01. -/
theorem C8_optimizeQAOA (costH mixingH : List (List Complex)) (r : ℕ → ℝ) :
    (optimizeQAOA costH mixingH 2 r).1.length = 4 ∧
      MAX_ITERATIONS = 1000 ∧ CONVERGENCE_THRESHOLD = 1e-6 ∧ LEARNING_RATE = 0.01 ∧
      ∃ e, (optimizeQAOA costH mixingH 2 r).2 = some e ∧ |e| ≤ 4 := by
  have hlen0 : (initRandomParameters (2 * 2) r).length = 4 := by
    simp [initRandomParameters]
  refine ⟨?_, rfl, rfl, rfl, ?_⟩
  · rw [optimizeQAOA, qaoaLoop_length, hlen0]
  · rw [optimizeQAOA]
    have h1000 : MAX_ITERATIONS = 999 + 1 := by norm_num [MAX_ITERATIONS]
    rw [h1000, qaoaLoop]
    have hb := qaoaLoop_some_bound costH mixingH 2 4 999
      (updateParameters (initRandomParameters (2 * 2) r)
        (evaluateQAOAObjective (initRandomParameters (2 * 2) r) costH mixingH 2).2)
      (evaluateQAOAObjective (initRandomParameters (2 * 2) r) costH mixingH 2).1
      (by rw [updateParameters_length, hlen0])
      (by
        have h := evaluateQAOAObjective_energy_bound (initRandomParameters (2 * 2) r)
          costH mixingH 2
        rw [hlen0] at h
        exact_mod_cast h)
    obtain ⟨e2, he2, hb2⟩ := hb
    exact ⟨e2, he2, by exact_mod_cast hb2⟩

/-! ### C2: imaginary time evolution -/

/-- Modelled from the claim wording of C2: K rounds of the ACCUMULATING Euler
update followed by renormalization. -/
def claimedImaginaryTimeEvolution (hamiltonian : List (List Complex))
    (initialState : List Complex) (evolutionTime : ℝ) (timeSteps : ℕ) : List Complex :=
  (fun st => normalizeState (eulerAccumStep hamiltonian (evolutionTime / timeSteps) st))^[timeSteps]
    initialState

/-- C2 counterexample: for H = [[0,1],[1,0]], s = [1,0], T = 1, K = 1 the code
returns [0,1] (the evolve step REPLACES the state with H·s·dt), while the
claimed accumulating rule s[i] += Σⱼ H[i][j]·s[j]·dt would give
[1/√2, 1/√2] after normalization. -/
theorem C2_counterexample :
    imaginaryTimeEvolution [[⟨0, 0⟩, ⟨1, 0⟩], [⟨1, 0⟩, ⟨0, 0⟩]] [⟨1, 0⟩, ⟨0, 0⟩] 1 1 ≠
      claimedImaginaryTimeEvolution [[⟨0, 0⟩, ⟨1, 0⟩], [⟨1, 0⟩, ⟨0, 0⟩]]
        [⟨1, 0⟩, ⟨0, 0⟩] 1 1 := by
  have hdt : (1 : ℝ) / ((1 : ℕ) : ℝ) = 1 := by norm_num
  have hL : imaginaryTimeEvolution [[⟨0, 0⟩, ⟨1, 0⟩], [⟨1, 0⟩, ⟨0, 0⟩]] [⟨1, 0⟩, ⟨0, 0⟩] 1 1 =
      [⟨0, 0⟩, ⟨1, 0⟩] := by
    rw [imaginaryTimeEvolution, hdt]
    rw [imaginaryTimeEvolutionAux, imaginaryTimeEvolutionAux]
    norm_num [evolveState, normalizeState, getC, List.enum, List.enumFrom, Real.sqrt_one]
  have hR : claimedImaginaryTimeEvolution [[⟨0, 0⟩, ⟨1, 0⟩], [⟨1, 0⟩, ⟨0, 0⟩]]
      [⟨1, 0⟩, ⟨0, 0⟩] 1 1 =
      [⟨1 / Real.sqrt 2, 0⟩, ⟨1 / Real.sqrt 2, 0⟩] := by
    rw [claimedImaginaryTimeEvolution, hdt, Function.iterate_one]
    norm_num [eulerAccumStep, normalizeState, csum, addComplex, multiplyComplex,
      scaleComplex, getC, List.enum, List.enumFrom]
  rw [hL, hR]
  intro h
  have h0 : (0 : ℝ) = 1 / Real.sqrt 2 := by
    have := congrArg (fun l => (List.getD l 0 (⟨0, 0⟩ : Complex)).real) h
    simpa using this
  have hs : 0 < Real.sqrt 2 := Real.sqrt_pos.mpr (by norm_num)
  have : 0 < 1 / Real.sqrt 2 := by positivity
  linarith [h0 ▸ this]

/-- C2 (amended): imaginaryTimeEvolution performs K steps (K ≥ 1) where each
step REPLACES the state by state'[i] = Σⱼ H[i][j]·state[j]·dt (complex
multiply, dt = T/K) — rather than adding that sum to state[i] — and then
renormalizes the state vector, returning the final state. -/
theorem C2_imaginaryTimeEvolution (hamiltonian : List (List Complex))
    (initialState : List Complex) (evolutionTime : ℝ) (timeSteps : ℕ)
    (h : 1 ≤ timeSteps) :
    imaginaryTimeEvolution hamiltonian initialState evolutionTime timeSteps =
      (fun st =>
        normalizeState
          (eulerReplaceStep hamiltonian (evolutionTime / timeSteps) st))^[timeSteps]
        initialState := by
  rw [imaginaryTimeEvolution, imaginaryTimeEvolutionAux_eq_iterate]

/-- C2 witness: the amended theorem applied at H = [[0,1],[1,0]], s = [1,0],
T = 1, K = 1. -/
theorem C2_witness : 1 ≤ 1 ∧
    imaginaryTimeEvolution [[⟨0, 0⟩, ⟨1, 0⟩], [⟨1, 0⟩, ⟨0, 0⟩]] [⟨1, 0⟩, ⟨0, 0⟩] 1 1 =
      (fun st =>
        normalizeState
          (eulerReplaceStep [[⟨0, 0⟩, ⟨1, 0⟩], [⟨1, 0⟩, ⟨0, 0⟩]] ((1 : ℝ) / ((1 : ℕ) : ℝ)) st))^[1]
        [⟨1, 0⟩, ⟨0, 0⟩] :=
  ⟨le_refl 1,
    C2_imaginaryTimeEvolution [[⟨0, 0⟩, ⟨1, 0⟩], [⟨1, 0⟩, ⟨0, 0⟩]] [⟨1, 0⟩, ⟨0, 0⟩] 1 1
      (le_refl 1)⟩

/-! ### QuantumProcessor (src/lib/quantum/core.ts) -/

/-- `QuantumState` of src/types/quantum.ts. -/
structure QuantumState where
  qubits : List ℝ
  superposition : Bool
  entanglement : ℝ
  coherence : ℝ

/-- The gate kinds of `QuantumGate` (src/types/quantum.ts). -/
inductive GateType
  | H | X | Y | Z | CNOT | RX | RY | RZ | T | S
deriving DecidableEq

/-- `QuantumGate` of src/types/quantum.ts; `control` and `angle` are
optional. -/
structure QuantumGate where
  type : GateType
  target : ℕ
  control : Option ℕ := none
  angle : Option ℝ := none

/-- The two `Invalid ... qubit` errors thrown by `validateGateOperation`. -/
inductive QuantumError
  | invalidTarget (idx : ℕ)
  | invalidControl (idx : ℕ)
deriving DecidableEq

/-- `planckConstant` of class QuantumProcessor. -/
def planckConstant : ℝ := 6.62607015e-34

/-- `boltzmannConstant` of class QuantumProcessor. -/
def boltzmannConstant : ℝ := 1.380649e-23

/-- `temperature` of class QuantumProcessor (15 mK). -/
def temperature : ℝ := 0.015

/-- `T2` of the DecoherenceModel built in the constructor. -/
def T2 : ℝ := 70e-6

/-- `environmentalNoise` of the DecoherenceModel. -/
def environmentalNoise : ℝ := 0.001

/-- The factor exp(−quantumEnergy/thermalEnergy) of `applyDecoherenceEffects`,
with quantumEnergy = planckConstant·1e9 and thermalEnergy =
boltzmannConstant·temperature. -/
def thermalNoise : ℝ :=
  Real.exp (-(planckConstant * 1e9) / (boltzmannConstant * temperature))

/-- `applyDecoherenceEffects`: coherence ·= exp(−1ns/T2), then
coherence ·= (1 − thermalNoise). -/
def applyDecoherenceEffects (s : QuantumState) : QuantumState :=
  { s with coherence := s.coherence * Real.exp (-(1e-9) / T2) * (1 - thermalNoise) }

/-- The per-call coherence decay factor of `applyDecoherenceEffects`. -/
def decoherenceFactor : ℝ := Real.exp (-(1e-9) / T2) * (1 - thermalNoise)

/-- `WaveFunctionCollapse` of src/lib/quantum/core.ts. -/
structure WaveFunctionCollapse where
  amplitude : ℝ
  phase : ℝ
  probability : ℝ

/-- `calculateWaveFunction`: amplitude = √(1 − coherence²), phase = 2π·U for
one draw U, probability = amplitude².  The qubit index argument of the source
does not influence the result, so it is omitted; the call consumes exactly
one draw. -/
def calculateWaveFunction (r : ℕ → ℝ) (k : ℕ) (coherence : ℝ) :
    WaveFunctionCollapse × ℕ :=
  let amplitude := Real.sqrt (1 - coherence ^ 2)
  let phase := 2 * Real.pi * r k
  (⟨amplitude, phase, amplitude ^ 2⟩, k + 1)

/-- The `map` of `calibrateQuantumRegisters`, threading the draw cursor
through the per-qubit wavefunction calls. -/
def calibrateAux (r : ℕ → ℝ) (coherence : ℝ) : List ℝ → ℕ → List ℝ × ℕ
  | [], k => ([], k)
  | q :: qs, k =>
    let w := calculateWaveFunction r k coherence
    let rest := calibrateAux r coherence qs w.2
    (q * (1 - environmentalNoise * w.1.probability) :: rest.1, rest.2)

/-- `calibrateQuantumRegisters`: scale every qubit scalar by
(1 − environmentalNoise·probability). -/
def calibrateQuantumRegisters (r : ℕ → ℝ) (k : ℕ) (s : QuantumState) :
    QuantumState × ℕ :=
  let res := calibrateAux r s.coherence s.qubits k
  ({ s with qubits := res.1 }, res.2)

/-- `applySurfaceCode`: copy qubit startIdx into the following two slots. -/
def applySurfaceCode (qs : List ℝ) (startIdx : ℕ) : List ℝ :=
  let ancillaQubit := qs.getD startIdx 0
  (qs.set (startIdx + 1) ancillaQubit).set (startIdx + 2) ancillaQubit

/-- `initializeErrorCorrection`: when at least 3 qubits exist, run
`applySurfaceCode` at i = 0, 3, 6, ... while i < length − 2 (the i-th pass
touches indices 3k for 3k ≤ length − 3). -/
def initErrorCorrection (qs : List ℝ) : List ℝ :=
  if 3 ≤ qs.length then
    ((List.range ((qs.length - 3) / 3 + 1)).map (fun k => 3 * k)).foldl applySurfaceCode qs
  else qs

/-- The QuantumProcessor constructor: a fresh state (qubit scalars 0,
superposition false, entanglement 0, coherence 1.0) followed by
`initializeQuantumSystem` = decoherence step, register calibration,
error-correction bootstrap. -/
def mkQuantumProcessor (qubits : ℕ) (r : ℕ → ℝ) (k : ℕ) : QuantumState × ℕ :=
  let s0 : QuantumState := ⟨List.replicate qubits 0, false, 0, 1⟩
  let s1 := applyDecoherenceEffects s0
  let res := calibrateQuantumRegisters r k s1
  ({ res.1 with qubits := initErrorCorrection res.1.qubits }, res.2)

/-- `hadamardGate`: superposition := true,
coherence ·= (1 − amplitude·sin phase), then ·= (1 − U·environmentalNoise)
for a fresh draw U.  Consumes two draws. -/
def hadamardGate (r : ℕ → ℝ) (k : ℕ) (s : QuantumState) (target : ℕ) :
    QuantumState × ℕ :=
  let w := calculateWaveFunction r k s.coherence
  let c1 := s.coherence * (1 - w.1.amplitude * Real.sin w.1.phase)
  let fluctuation := r w.2 * environmentalNoise
  ({ s with superposition := true, coherence := c1 * (1 - fluctuation) }, w.2 + 1)

/-- `pauliXGate`: flip the target scalar between the 0-like and 1-like
branches, each perturbed by probability·environmentalNoise. -/
def pauliXGate (r : ℕ → ℝ) (k : ℕ) (s : QuantumState) (target : ℕ) :
    QuantumState × ℕ :=
  let previousState := s.qubits.getD target 0
  let w := calculateWaveFunction r k s.coherence
  let newValue :=
    if previousState = 0 then 1 - w.1.probability * environmentalNoise
    else 0 + w.1.probability * environmentalNoise
  ({ s with qubits := s.qubits.set target newValue }, w.2)

/-- `updateEntanglementMetric` for a (control, target) pair. -/
def updateEntanglementMetric (s : QuantumState) (control target : ℕ) : QuantumState :=
  let entanglementStrength :=
    |s.qubits.getD control 0 * s.qubits.getD target 0 -
      (1 - s.qubits.getD control 0) * (1 - s.qubits.getD target 0)|
  { s with entanglement := min 1 (s.entanglement + entanglementStrength * 0.1) }

/-- `cnotGate`: no-op without a control; X on the target when the control
scalar equals 1; always update the pairwise entanglement metric. -/
def cnotGate (r : ℕ → ℝ) (k : ℕ) (s : QuantumState) (target : ℕ)
    (control : Option ℕ) : QuantumState × ℕ :=
  match control with
  | none => (s, k)
  | some c =>
    let res := if s.qubits.getD c 0 = 1 then pauliXGate r k s target else (s, k)
    (updateEntanglementMetric res.1 c target, res.2)

/-- The nested pair loop of `updateSystemEntanglement`: for every unordered
pair i < j accumulate |qᵢ·qⱼ − √((1−qᵢ²)(1−qⱼ²))|.  Real-number
idealization: `Real.sqrt` of a negative argument is 0 where `Math.sqrt`
yields NaN; `globalEntanglementSumJS` below re-traces the loop under IEEE
semantics and agrees with this sum exactly when all scalars lie in
[−1,1]. -/
def globalEntanglementSum (qs : List ℝ) : ℝ :=
  ∑ i in Finset.range (qs.length - 1), ∑ j in Finset.Ico (i + 1) qs.length,
    |qs.getD i 0 * qs.getD j 0 -
      Real.sqrt ((1 - qs.getD i 0 ^ 2) * (1 - qs.getD j 0 ^ 2))|

/-- `updateSystemEntanglement`: replace the entanglement by
min(1, pairSum / (N·(N−1)/2)).  Real-number idealization: at N = 1 the
quotient 0/0 is 0 where the source computes Math.min(1, NaN) = NaN;
`updateSystemEntanglementJS` below re-traces this under IEEE semantics and
agrees exactly when N ≥ 2 and all scalars lie in [−1,1]. -/
def updateSystemEntanglement (s : QuantumState) : QuantumState :=
  { s with
    entanglement :=
      min 1 (globalEntanglementSum s.qubits /
        ((s.qubits.length : ℝ) * ((s.qubits.length : ℝ) - 1) / 2)) }

/-- `validateGateOperation`: target out of range throws first, then a present
out-of-range control. -/
def validateGateOperation (s : QuantumState) (gate : QuantumGate) :
    Option QuantumError :=
  if s.qubits.length ≤ gate.target then some (.invalidTarget gate.target)
  else
    match gate.control with
    | some c => if s.qubits.length ≤ c then some (.invalidControl c) else none
    | none => none

/-- The dispatch half of `applyGate`: the `gateOperations` map holds only H,
X and CNOT; a dispatched operation is followed by `applyDecoherenceEffects`
and `updateSystemEntanglement`, while an undispatched kind leaves everything
untouched. -/
def dispatchGate (r : ℕ → ℝ) (k : ℕ) (s : QuantumState) (gate : QuantumGate) :
    QuantumState × ℕ :=
  let run : Option (QuantumState × ℕ) :=
    match gate.type with
    | .H => some (hadamardGate r k s gate.target)
    | .X => some (pauliXGate r k s gate.target)
    | .CNOT => some (cnotGate r k s gate.target gate.control)
    | _ => none
  match run with
  | some res => (updateSystemEntanglement (applyDecoherenceEffects res.1), res.2)
  | none => (s, k)

/-- `applyGate`: validation runs before any mutation, so on a thrown error
the prior state (and the draw cursor) is passed through unchanged. -/
def applyGate (r : ℕ → ℝ) (k : ℕ) (gate : QuantumGate) (s : QuantumState) :
    Except QuantumError Unit × QuantumState × ℕ :=
  match validateGateOperation s gate with
  | some e => (.error e, s, k)
  | none =>
    let res := dispatchGate r k s gate
    (.ok (), res.1, res.2)

/-- The per-qubit sampling loop of `measure`: one wavefunction draw (the
phase), then one comparison draw; observe 1 when the comparison draw is
below the probability, otherwise keep the qubit scalar. -/
def measureAux (r : ℕ → ℝ) (coherence : ℝ) : List ℝ → ℕ → List ℝ × ℕ
  | [], k => ([], k)
  | q :: qs, k =>
    let w := calculateWaveFunction r k coherence
    let u := r w.2
    let rest := measureAux r coherence qs (w.2 + 1)
    ((if u < w.1.probability then 1 else q) :: rest.1, rest.2)

/-- `calculateSystemEnergy`: Σ amplitudeᵢ·cos(phaseᵢ)·planckConstant, one
wavefunction draw per qubit.  Its value is computed and then dropped by
`measure`, but the draws it consumes advance the cursor. -/
def calculateSystemEnergyAux (r : ℕ → ℝ) (coherence : ℝ) :
    List ℝ → ℕ → ℝ → ℝ × ℕ
  | [], k, acc => (acc, k)
  | _ :: qs, k, acc =>
    let w := calculateWaveFunction r k coherence
    calculateSystemEnergyAux r coherence qs w.2
      (acc + w.1.amplitude * Real.cos w.1.phase * planckConstant)

/-- `calculateMeasurementFidelity`:
coherence·(1 − environmentalNoise)·(1 − temperature·kB/(planck·1e9)). -/
def calculateMeasurementFidelity (s : QuantumState) : ℝ :=
  s.coherence * (1 - environmentalNoise) *
    (1 - temperature * boltzmannConstant / (planckConstant * 1e9))

/-- `calculateExecutionTime`: (20ns + 100ns + U·50ns)·1e9, one draw. -/
def calculateExecutionTime (r : ℕ → ℝ) (k : ℕ) : ℝ × ℕ :=
  (((20e-9 : ℝ) + 100e-9 + r k * 50e-9) * 1e9, k + 1)

/-- `ProcessingResult` of src/types/quantum.ts. -/
structure ProcessingResult where
  state : QuantumState
  probability : ℝ
  confidence : ℝ
  executionTime : ℝ

/-- `measure`: a decoherence step (mutating the live state), the sampling
pass, system energy (value unused), fidelity, execution time; returns the
result snapshot together with the mutated live state and the cursor. -/
def measure (r : ℕ → ℝ) (k : ℕ) (s : QuantumState) :
    ProcessingResult × QuantumState × ℕ :=
  let s1 := applyDecoherenceEffects s
  let mres := measureAux r s1.coherence s1.qubits k
  let eres := calculateSystemEnergyAux r s1.coherence s1.qubits mres.2 0
  let fidelity := calculateMeasurementFidelity s1
  let et := calculateExecutionTime r eres.2
  (⟨{ s1 with qubits := mres.1 }, fidelity, s1.coherence, et.1⟩, s1, et.2)

/-! ### Numeric bounds for the decoherence factor -/

theorem thermalNoise_pos : 0 < thermalNoise := Real.exp_pos _

theorem thermalNoise_lt_one : thermalNoise < 1 := by
  rw [thermalNoise]
  apply Real.exp_lt_one_iff.mpr
  rw [planckConstant, boltzmannConstant, temperature, div_neg_iff]
  right
  constructor <;> norm_num

theorem thermalNoise_le : thermalNoise ≤ 0.0959 := by
  rw [thermalNoise]
  set q : ℝ := planckConstant * 1e9 / (boltzmannConstant * temperature) with hq
  have hq319 : (3.19 : ℝ) ≤ q := by
    rw [hq, planckConstant, boltzmannConstant, temperature, le_div_iff₀ (by norm_num)]
    norm_num
  have h1 : 1 + q / 4 ≤ Real.exp (q / 4) := by
    have h := Real.add_one_le_exp (q / 4)
    linarith
  have h14 : (1 + q / 4) ^ 4 ≤ Real.exp q := by
    calc (1 + q / 4) ^ 4 ≤ Real.exp (q / 4) ^ 4 :=
          pow_le_pow_left₀ (by linarith) h1 4
      _ = Real.exp q := by
          rw [← Real.exp_nat_mul]
          norm_num
          ring_nf
  have hpow : (10.43 : ℝ) ≤ (1 + q / 4) ^ 4 := by
    calc (10.43 : ℝ) ≤ (1 + 3.19 / 4) ^ 4 := by norm_num
      _ ≤ (1 + q / 4) ^ 4 := pow_le_pow_left₀ (by norm_num) (by linarith) 4
  have hexp : (10.43 : ℝ) ≤ Real.exp q := le_trans hpow h14
  have hneg : -(planckConstant * 1e9) / (boltzmannConstant * temperature) = -q := by
    rw [hq]; ring
  rw [hneg, Real.exp_neg, inv_le_comm₀ (Real.exp_pos q) (by norm_num)]
  calc ((0.0959 : ℝ))⁻¹ ≤ 10.43 := by norm_num
    _ ≤ Real.exp q := hexp

theorem expT2_ge : (0.99998 : ℝ) ≤ Real.exp (-(1e-9) / T2) := by
  have h := Real.add_one_le_exp (-(1e-9) / T2)
  have h2 : -(1e-9) / T2 = -(1 / 70000) := by rw [T2]; norm_num
  rw [h2] at h ⊢
  linarith

theorem expT2_le_one : Real.exp (-(1e-9) / T2) ≤ 1 := by
  apply Real.exp_le_one_iff.mpr
  rw [T2]
  norm_num

theorem decoherenceFactor_pos : 0 < decoherenceFactor := by
  rw [decoherenceFactor]
  have h1 := thermalNoise_lt_one
  have h2 := Real.exp_pos (-(1e-9) / T2)
  nlinarith

theorem decoherenceFactor_lt_one : decoherenceFactor < 1 := by
  rw [decoherenceFactor]
  have h1 := expT2_le_one
  have h2 := thermalNoise_pos
  have h3 := Real.exp_pos (-(1e-9) / T2)
  nlinarith

theorem decoherenceFactor_ge : (0.904 : ℝ) ≤ decoherenceFactor := by
  rw [decoherenceFactor]
  have h1 := expT2_ge
  have h2 := thermalNoise_le
  have h3 := thermalNoise_pos
  nlinarith

/-- For 0.904 ≤ d < 1 the pumped coherence d³·(1 + √(1 − d²)) exceeds 1. -/
theorem pump_gt_one (d : ℝ) (h1 : (0.904 : ℝ) ≤ d) (h2 : d < 1) :
    1 < d ^ 3 * (1 + Real.sqrt (1 - d ^ 2)) := by
  have hd0 : 0 < d := by linarith
  have hs0 : 0 ≤ Real.sqrt (1 - d ^ 2) := Real.sqrt_nonneg _
  have hssq : Real.sqrt (1 - d ^ 2) ^ 2 = 1 - d ^ 2 := Real.sq_sqrt (by nlinarith)
  set s := Real.sqrt (1 - d ^ 2)
  have hd1 : d ≤ 1 := le_of_lt h2
  have hg2 : d ^ 2 + d + 1 < d ^ 7 + d ^ 6 + d ^ 5 + d ^ 4 + d ^ 3 := by
    have h3 := pow_le_pow_left₀ (by norm_num : (0:ℝ) ≤ 0.904) h1 3
    have h4 := pow_le_pow_left₀ (by norm_num : (0:ℝ) ≤ 0.904) h1 4
    have h5 := pow_le_pow_left₀ (by norm_num : (0:ℝ) ≤ 0.904) h1 5
    have h6 := pow_le_pow_left₀ (by norm_num : (0:ℝ) ≤ 0.904) h1 6
    have h7 := pow_le_pow_left₀ (by norm_num : (0:ℝ) ≤ 0.904) h1 7
    have hp2 := pow_le_one₀ (by linarith : (0:ℝ) ≤ d) hd1 (n := 2)
    norm_num at h3 h4 h5 h6 h7
    nlinarith
  have hfac : 0 < (1 - d) * (d ^ 7 + d ^ 6 + d ^ 5 + d ^ 4 + d ^ 3 - d ^ 2 - d - 1) :=
    mul_pos (by linarith) (by linarith)
  have hkey : (1 - d ^ 3) ^ 2 < (1 - d ^ 2) * d ^ 6 := by nlinarith [hfac]
  have hsd : 1 - d ^ 3 < s * d ^ 3 := by
    have ha : 0 ≤ 1 - d ^ 3 := by
      nlinarith [pow_le_one₀ (by linarith : (0:ℝ) ≤ d) hd1 (n := 3)]
    have hb : 0 ≤ s * d ^ 3 := by positivity
    have hsq : (1 - d ^ 3) ^ 2 < (s * d ^ 3) ^ 2 := by
      have heq : (s * d ^ 3) ^ 2 = (1 - d ^ 2) * d ^ 6 := by
        rw [mul_pow, hssq]; ring
      rw [heq]; exact hkey
    exact lt_of_pow_lt_pow_left₀ 2 hb hsq
  nlinarith [hsd]

/-! ### Evaluating the constructor -/

theorem calibrateAux_replicate_zero (r : ℕ → ℝ) (c : ℝ) :
    ∀ (n k : ℕ), calibrateAux r c (List.replicate n 0) k = (List.replicate n 0, k + n) := by
  intro n
  induction n with
  | zero => intro k; simp [calibrateAux]
  | succ n ih =>
    intro k
    rw [List.replicate_succ, calibrateAux, ih]
    simp only [calculateWaveFunction, zero_mul, Prod.mk.injEq, List.replicate_succ,
      List.cons.injEq]
    refine ⟨?_, by omega⟩
    trivial

theorem getD_replicate_zero : ∀ (n i : ℕ), (List.replicate n (0:ℝ)).getD i 0 = 0 := by
  intro n
  induction n with
  | zero => intro i; simp
  | succ n ih =>
    intro i
    cases i with
    | zero => simp [List.replicate_succ]
    | succ i => simp only [List.replicate_succ, List.getD_cons_succ]; exact ih i

theorem set_replicate_zero : ∀ (n i : ℕ),
    (List.replicate n (0:ℝ)).set i 0 = List.replicate n 0 := by
  intro n
  induction n with
  | zero => intro i; simp
  | succ n ih =>
    intro i
    cases i with
    | zero => simp [List.replicate_succ]
    | succ i => simp only [List.replicate_succ, List.set_cons_succ]; rw [ih i]

theorem applySurfaceCode_replicate_zero (n i : ℕ) :
    applySurfaceCode (List.replicate n 0) i = List.replicate n 0 := by
  rw [applySurfaceCode]
  simp only [getD_replicate_zero, set_replicate_zero]

theorem initErrorCorrection_replicate_zero (n : ℕ) :
    initErrorCorrection (List.replicate n 0) = List.replicate n 0 := by
  rw [initErrorCorrection]
  split
  · generalize (List.range _).map _ = idxs
    induction idxs with
    | nil => rfl
    | cons i idxs ih => rw [List.foldl_cons, applySurfaceCode_replicate_zero, ih]
  · rfl

/-- The constructor fully evaluated: all-zero qubits, no superposition, zero
entanglement, coherence decayed once by the decoherence factor, and one draw
consumed per qubit (by register calibration). -/
theorem mkQuantumProcessor_eval (n : ℕ) (r : ℕ → ℝ) (k : ℕ) :
    mkQuantumProcessor n r k =
      (⟨List.replicate n 0, false, 0, decoherenceFactor⟩, k + n) := by
  simp only [mkQuantumProcessor, applyDecoherenceEffects, calibrateQuantumRegisters,
    calibrateAux_replicate_zero, initErrorCorrection_replicate_zero, decoherenceFactor,
    one_mul]

/-! ### C1: the freshly constructed state -/

/-- C1 counterexample: for N = 1 and the all-zero draw stream, the state
immediately after construction does NOT satisfy coherence = 1.0 together with
entanglement = 0.0: the constructor itself runs one decoherence step, so the
coherence is decoherenceFactor < 1 (entanglement alone is indeed 0). -/
theorem C1_counterexample :
    ¬ ((mkQuantumProcessor 1 (fun _ => 0) 0).1.coherence = 1 ∧
       (mkQuantumProcessor 1 (fun _ => 0) 0).1.entanglement = 0) := by
  rw [mkQuantumProcessor_eval]
  intro h
  have h1 := h.1
  simp only at h1
  have h2 := decoherenceFactor_lt_one
  rw [h1] at h2
  exact lt_irrefl 1 h2

/-- C1 (amended): immediately after constructing a QuantumProcessor with
N ≥ 1 qubits, the entanglement equals 0.0, but the coherence is not 1.0: the
constructor runs one decoherence step, leaving coherence =
exp(−1ns/T2)·(1 − thermalNoise) strictly between 0 and 1. -/
theorem C1_fresh_state (n : ℕ) (r : ℕ → ℝ) (k : ℕ) (h : 1 ≤ n) :
    (mkQuantumProcessor n r k).1.entanglement = 0 ∧
      0 < (mkQuantumProcessor n r k).1.coherence ∧
      (mkQuantumProcessor n r k).1.coherence < 1 := by
  rw [mkQuantumProcessor_eval]
  exact ⟨rfl, decoherenceFactor_pos, decoherenceFactor_lt_one⟩

/-- C1 witness: the amended statement at N = 1 with the zero stream. -/
theorem C1_witness :
    (mkQuantumProcessor 1 (fun _ => (0:ℝ)) 0).1.entanglement = 0 ∧
      0 < (mkQuantumProcessor 1 (fun _ => (0:ℝ)) 0).1.coherence ∧
      (mkQuantumProcessor 1 (fun _ => (0:ℝ)) 0).1.coherence < 1 :=
  C1_fresh_state 1 (fun _ => 0) 0 (le_refl 1)

/-! ### C5: the global entanglement recompute under IEEE semantics

The real-valued `globalEntanglementSum` / `updateSystemEntanglement` above
silently smooth over two IEEE behaviours of the source: `Math.sqrt` of a
negative argument and the `0/0` quotient at N = 1 both produce NaN, and
`Math.min(1, NaN)` is NaN.  To settle C5 against the program rather than
against the real-number idealization, `updateSystemEntanglement` is re-traced
here over an explicit IEEE-style number type. -/

/-- An IEEE-style JavaScript number: a finite real (overflow and signed zero
are idealized away, as finite values are modelled by exact reals throughout
this file), one of the two infinities, or NaN. -/
inductive JSNum
  | fin (x : ℝ)
  | posInf
  | negInf
  | nan

/-- IEEE negation. -/
def negJS : JSNum → JSNum
  | .fin x => .fin (-x)
  | .posInf => .negInf
  | .negInf => .posInf
  | .nan => .nan

/-- IEEE addition. -/
def addJS : JSNum → JSNum → JSNum
  | .nan, _ => .nan
  | _, .nan => .nan
  | .fin a, .fin b => .fin (a + b)
  | .fin _, .posInf => .posInf
  | .fin _, .negInf => .negInf
  | .posInf, .fin _ => .posInf
  | .negInf, .fin _ => .negInf
  | .posInf, .posInf => .posInf
  | .negInf, .negInf => .negInf
  | .posInf, .negInf => .nan
  | .negInf, .posInf => .nan

/-- IEEE subtraction (addition of the negation). -/
def subJS (a b : JSNum) : JSNum := addJS a (negJS b)

/-- `Math.sqrt`: NaN on negative finite arguments and on −Infinity. -/
def sqrtJS : JSNum → JSNum
  | .fin x => if x < 0 then .nan else .fin (Real.sqrt x)
  | .posInf => .posInf
  | .negInf => .nan
  | .nan => .nan

/-- `Math.abs`. -/
def absJS : JSNum → JSNum
  | .fin x => .fin |x|
  | .posInf => .posInf
  | .negInf => .posInf
  | .nan => .nan

/-- IEEE division: 0/0 is NaN, a nonzero finite numerator over (unsigned)
zero gives a signed infinity, a finite numerator over an infinity gives 0. -/
def divJS : JSNum → JSNum → JSNum
  | .nan, _ => .nan
  | _, .nan => .nan
  | .fin a, .fin b =>
    if b = 0 then (if a = 0 then .nan else if 0 < a then .posInf else .negInf)
    else .fin (a / b)
  | .fin _, .posInf => .fin 0
  | .fin _, .negInf => .fin 0
  | .posInf, .fin b => if 0 ≤ b then .posInf else .negInf
  | .negInf, .fin b => if 0 ≤ b then .negInf else .posInf
  | .posInf, _ => .nan
  | .negInf, _ => .nan

/-- `Math.min`: NaN when either argument is NaN. -/
def minJS : JSNum → JSNum → JSNum
  | .nan, _ => .nan
  | _, .nan => .nan
  | .fin a, .fin b => .fin (min a b)
  | .fin a, .posInf => .fin a
  | .posInf, .fin b => .fin b
  | .negInf, _ => .negInf
  | _, .negInf => .negInf
  | .posInf, .posInf => .posInf

/-- One addend of the `updateSystemEntanglement` pair loop under IEEE
semantics: |qᵢ·qⱼ − Math.sqrt((1−qᵢ²)(1−qⱼ²))|.  The products, squares and
differences of the finite inputs are exact finite reals; NaN can enter only
through the square root. -/
def pairTermJS (qi qj : ℝ) : JSNum :=
  absJS (subJS (.fin (qi * qj)) (sqrtJS (.fin ((1 - qi ^ 2) * (1 - qj ^ 2)))))

/-- The nested pair loop of `updateSystemEntanglement` under IEEE semantics:
i from 0 while i < N−1, j from i+1 while j < N, accumulating from 0. -/
def globalEntanglementSumJS (qs : List ℝ) : JSNum :=
  (List.range (qs.length - 1)).foldl
    (fun acc i =>
      (List.range' (i + 1) (qs.length - (i + 1))).foldl
        (fun acc2 j => addJS acc2 (pairTermJS (qs.getD i 0) (qs.getD j 0)))
        acc)
    (.fin 0)

/-- `updateSystemEntanglement`'s stored value under IEEE semantics:
Math.min(1, pairSum / (N·(N−1)/2)). -/
def updateSystemEntanglementJS (qs : List ℝ) : JSNum :=
  minJS (.fin 1)
    (divJS (globalEntanglementSumJS qs)
      (.fin ((qs.length : ℝ) * ((qs.length : ℝ) - 1) / 2)))

theorem addJS_fin (a b : ℝ) : addJS (.fin a) (.fin b) = .fin (a + b) := rfl

theorem subJS_fin (a b : ℝ) : subJS (.fin a) (.fin b) = .fin (a - b) := by
  simp [subJS, negJS, addJS, sub_eq_add_neg]

theorem divJS_fin (a b : ℝ) (hb : b ≠ 0) : divJS (.fin a) (.fin b) = .fin (a / b) := by
  simp only [divJS]
  rw [if_neg hb]

theorem minJS_fin (a b : ℝ) : minJS (.fin a) (.fin b) = .fin (min a b) := rfl

/-- With both scalars in [−1,1] the square-root argument is nonnegative and
the IEEE pair term is the finite real pair term. -/
theorem pairTermJS_fin (qi qj : ℝ) (hi : qi ^ 2 ≤ 1) (hj : qj ^ 2 ≤ 1) :
    pairTermJS qi qj =
      .fin |qi * qj - Real.sqrt ((1 - qi ^ 2) * (1 - qj ^ 2))| := by
  have harg : ¬ ((1 - qi ^ 2) * (1 - qj ^ 2) < 0) := by
    push_neg
    apply mul_nonneg <;> linarith
  rw [pairTermJS, sqrtJS, if_neg harg, subJS_fin, absJS]

theorem foldl_addJS_fin (g : ℕ → ℝ) :
    ∀ (l : List ℕ) (a : ℝ),
      l.foldl (fun acc j => addJS acc (.fin (g j))) (.fin a) =
        .fin (l.foldl (fun acc j => acc + g j) a) := by
  intro l
  induction l with
  | nil => intro a; rfl
  | cons j l ih =>
    intro a
    rw [List.foldl_cons, List.foldl_cons, addJS_fin]
    exact ih (a + g j)

theorem foldl_add_range' (g : ℕ → ℝ) :
    ∀ (len s : ℕ) (a : ℝ),
      (List.range' s len).foldl (fun acc j => acc + g j) a =
        a + ∑ j in Finset.Ico s (s + len), g j := by
  intro len
  induction len with
  | zero => intro s a; simp
  | succ len ih =>
    intro s a
    rw [List.range'_succ, List.foldl_cons, ih,
      Finset.sum_eq_sum_Ico_succ_bot (by omega : s < s + (len + 1)) g,
      show s + (len + 1) = (s + 1) + len by omega]
    ring

/-- Every `getD` read of a vector with scalars in [−1,1] has square ≤ 1 (the
out-of-range default 0 included). -/
theorem getD_sq_le_one (qs : List ℝ) (hq : ∀ q ∈ qs, -1 ≤ q ∧ q ≤ 1) (i : ℕ) :
    (qs.getD i 0) ^ 2 ≤ 1 := by
  by_cases hi : i < qs.length
  · have hmem := hq _ (List.get_mem qs i hi)
    rw [getD_of_lt qs i 0 hi]
    nlinarith [hmem.1, hmem.2]
  · rw [List.getD_eq_default qs 0 (by omega)]
    norm_num

/-- With all scalars in [−1,1], the IEEE pair loop produces exactly the
finite real pair sum used by the real-valued model. -/
theorem globalEntanglementSumJS_eq (qs : List ℝ)
    (hq : ∀ q ∈ qs, -1 ≤ q ∧ q ≤ 1) :
    globalEntanglementSumJS qs = .fin (globalEntanglementSum qs) := by
  have hterm : ∀ i j, pairTermJS (qs.getD i 0) (qs.getD j 0) =
      .fin |qs.getD i 0 * qs.getD j 0 -
        Real.sqrt ((1 - qs.getD i 0 ^ 2) * (1 - qs.getD j 0 ^ 2))| :=
    fun i j => pairTermJS_fin _ _ (getD_sq_le_one qs hq i) (getD_sq_le_one qs hq j)
  have houter : ∀ (l : List ℕ) (a : ℝ),
      l.foldl (fun acc i =>
        (List.range' (i + 1) (qs.length - (i + 1))).foldl
          (fun acc2 j => addJS acc2 (pairTermJS (qs.getD i 0) (qs.getD j 0)))
          acc)
        (.fin a) =
      .fin (l.foldl (fun x i =>
        x + ∑ j in Finset.Ico (i + 1) ((i + 1) + (qs.length - (i + 1))),
          |qs.getD i 0 * qs.getD j 0 -
            Real.sqrt ((1 - qs.getD i 0 ^ 2) * (1 - qs.getD j 0 ^ 2))|) a) := by
    intro l
    induction l with
    | nil => intro a; rfl
    | cons i l ih =>
      intro a
      rw [List.foldl_cons, List.foldl_cons]
      simp only [hterm] at ih ⊢
      rw [foldl_addJS_fin, foldl_add_range']
      exact ih _
  rw [globalEntanglementSumJS, globalEntanglementSum, houter]
  congr 1
  rw [foldl_add_range, zero_add]
  apply Finset.sum_congr rfl
  intro i hi
  rw [Finset.mem_range] at hi
  rw [show (i + 1) + (qs.length - (i + 1)) = qs.length by omega]

/-- C5 counterexample: for the 1-qubit vector [0] — an input the claim
includes (N = 1) — the pair loop is empty, the pair count is 0, and the
source stores Math.min(1, 0/0) = NaN: the stored entanglement is not a value
within [0,1].  (Likewise any scalar outside [−1,1], e.g. [2, 0], feeds
Math.sqrt a negative argument and stores NaN.) -/
theorem C5_counterexample :
    updateSystemEntanglementJS [0] = .nan ∧
      ¬ ∃ x, updateSystemEntanglementJS [0] = JSNum.fin x ∧ 0 ≤ x ∧ x ≤ 1 := by
  have hgs : globalEntanglementSumJS [0] = .fin 0 := rfl
  have hden : ((List.length [(0:ℝ)] : ℝ) * ((List.length [(0:ℝ)] : ℝ) - 1) / 2) = 0 := by
    norm_num
  have h1 : updateSystemEntanglementJS [0] = .nan := by
    rw [updateSystemEntanglementJS, hgs, hden]
    simp [divJS, minJS]
  refine ⟨h1, ?_⟩
  rintro ⟨x, hx, _⟩
  rw [h1] at hx
  exact JSNum.noConfusion hx

/-- C5 (amended): for every qubit vector of length N ≥ 2 whose scalars all
lie in [−1,1], the IEEE computation of updateSystemEntanglement returns the
finite value of the real-valued model, and that stored entanglement lies
within [0,1].  Outside this domain the claim fails: at N = 1 the source
stores Math.min(1, 0/0) = NaN, and a scalar outside [−1,1] makes Math.sqrt
return NaN (see the counterexample). -/
theorem C5_updateSystemEntanglement (s : QuantumState) (h2 : 2 ≤ s.qubits.length)
    (hq : ∀ q ∈ s.qubits, -1 ≤ q ∧ q ≤ 1) :
    updateSystemEntanglementJS s.qubits =
      .fin ((updateSystemEntanglement s).entanglement) ∧
      0 ≤ (updateSystemEntanglement s).entanglement ∧
      (updateSystemEntanglement s).entanglement ≤ 1 := by
  have hD : (0:ℝ) < (s.qubits.length : ℝ) * ((s.qubits.length : ℝ) - 1) / 2 := by
    have hc : (2:ℝ) ≤ (s.qubits.length : ℝ) := by exact_mod_cast h2
    nlinarith
  have hmodel : (updateSystemEntanglement s).entanglement =
      min 1 (globalEntanglementSum s.qubits /
        ((s.qubits.length : ℝ) * ((s.qubits.length : ℝ) - 1) / 2)) := rfl
  have hnonneg : 0 ≤ globalEntanglementSum s.qubits := by
    rw [globalEntanglementSum]
    apply Finset.sum_nonneg
    intro i _
    apply Finset.sum_nonneg
    intro j _
    exact abs_nonneg _
  refine ⟨?_, ?_, ?_⟩
  · rw [updateSystemEntanglementJS, globalEntanglementSumJS_eq s.qubits hq,
      divJS_fin _ _ (ne_of_gt hD), minJS_fin, hmodel]
  · rw [hmodel]
    exact le_min (by norm_num) (div_nonneg hnonneg hD.le)
  · rw [hmodel]
    exact min_le_left _ _

/-- C5 witness: the amended theorem at the all-zero 2-qubit vector (IEEE
value fin 1, within [0,1]). -/
theorem C5_witness :
    updateSystemEntanglementJS ([0, 0] : List ℝ) =
      .fin ((updateSystemEntanglement ⟨[0, 0], false, 0, 1⟩).entanglement) ∧
      0 ≤ (updateSystemEntanglement ⟨[0, 0], false, 0, 1⟩).entanglement ∧
      (updateSystemEntanglement ⟨[0, 0], false, 0, 1⟩).entanglement ≤ 1 :=
  C5_updateSystemEntanglement ⟨[0, 0], false, 0, 1⟩ (by norm_num)
    (by
      intro q hq
      simp only [List.mem_cons, List.not_mem_nil, or_false] at hq
      rcases hq with h | h <;> rw [h] <;> norm_num)

/-! ### C6 and C10: gate validation and dispatch -/

theorem validate_eq_none_iff (s : QuantumState) (g : QuantumGate) :
    validateGateOperation s g = none ↔
      (g.target < s.qubits.length ∧ ∀ c, g.control = some c → c < s.qubits.length) := by
  rw [validateGateOperation]
  cases hc : g.control with
  | none =>
    simp only [hc]
    split_ifs with h1 <;> simp <;> omega
  | some c =>
    simp only [hc]
    split_ifs with h1 h2 <;> simp <;> omega

/-- C6: applyGate fails with an invalid-qubit error exactly when the target
is ≥ the qubit count or a present control is ≥ the qubit count; and whenever
it fails, the live state is exactly as it was before the call (validation
throws before any mutation). -/
theorem C6_applyGate (r : ℕ → ℝ) (k : ℕ) (g : QuantumGate) (s : QuantumState) :
    ((∃ e, (applyGate r k g s).1 = .error e) ↔
      (s.qubits.length ≤ g.target ∨ ∃ c, g.control = some c ∧ s.qubits.length ≤ c)) ∧
    (∀ e, (applyGate r k g s).1 = .error e → (applyGate r k g s).2.1 = s) := by
  rcases hv : validateGateOperation s g with _ | e
  · have hok : applyGate r k g s =
        (.ok (), (dispatchGate r k s g).1, (dispatchGate r k s g).2) := by
      rw [applyGate, hv]
    have hcond := (validate_eq_none_iff s g).mp hv
    constructor
    · constructor
      · rintro ⟨e, he⟩
        rw [hok] at he
        simp at he
      · rintro (h | ⟨c, hc, hlen⟩)
        · exact absurd hcond.1 (by omega)
        · exact absurd (hcond.2 c hc) (by omega)
    · intro e he
      rw [hok] at he
      simp at he
  · have herr : applyGate r k g s = (.error e, s, k) := by rw [applyGate, hv]
    constructor
    · constructor
      · intro _
        by_contra hnc
        push_neg at hnc
        have hnone : validateGateOperation s g = none :=
          (validate_eq_none_iff s g).mpr hnc
        rw [hv] at hnone
        simp at hnone
      · intro _
        exact ⟨e, by rw [herr]⟩
    · intro e2 _
      rw [herr]

/-- C6 witness: a Hadamard gate on target 5 of a 1-qubit state fails and
leaves the state untouched. -/
theorem C6_witness :
    (applyGate (fun _ => (0:ℝ)) 0 ⟨GateType.H, 5, none, none⟩ ⟨[0], false, 0, 1⟩).2.1 =
      ⟨[0], false, 0, 1⟩ :=
  (C6_applyGate (fun _ => 0) 0 ⟨GateType.H, 5, none, none⟩ ⟨[0], false, 0, 1⟩).2
    (QuantumError.invalidTarget 5) (by simp [applyGate, validateGateOperation])

/-- C10: for the undispatched gate kinds Y, Z, RX, RY, RZ, T, S with an
in-range target (and in-range control when present), applyGate returns
normally and is a complete no-op: qubit scalars, superposition flag,
entanglement and coherence are untouched, no decoherence step runs, no
global entanglement recompute runs, and not even a random draw is consumed. -/
theorem C10_undispatched_noop (r : ℕ → ℝ) (k : ℕ) (g : QuantumGate) (s : QuantumState)
    (hkind : g.type = GateType.Y ∨ g.type = GateType.Z ∨ g.type = GateType.RX ∨
      g.type = GateType.RY ∨ g.type = GateType.RZ ∨ g.type = GateType.T ∨
      g.type = GateType.S)
    (htarget : g.target < s.qubits.length)
    (hcontrol : ∀ c, g.control = some c → c < s.qubits.length) :
    applyGate r k g s = (.ok (), s, k) := by
  have hv : validateGateOperation s g = none :=
    (validate_eq_none_iff s g).mpr ⟨htarget, hcontrol⟩
  have hd : dispatchGate r k s g = (s, k) := by
    rw [dispatchGate]
    rcases hkind with h | h | h | h | h | h | h <;> rw [h]
  rw [applyGate, hv, hd]

/-- C10 witness: a Y gate on a valid target of a 1-qubit state. -/
theorem C10_witness :
    applyGate (fun _ => (0:ℝ)) 0 ⟨GateType.Y, 0, none, none⟩ ⟨[0], false, 0, 1⟩ =
      (.ok (), ⟨[0], false, 0, 1⟩, 0) :=
  C10_undispatched_noop (fun _ => 0) 0 ⟨GateType.Y, 0, none, none⟩ ⟨[0], false, 0, 1⟩
    (Or.inl rfl) (by simp) (by intro c hc; simp at hc)

/-! ### C4: measure can report confidence above 1 -/

/-- The random stream driving the C4 counterexample: draw number 2 — the
Hadamard phase draw, the 2-qubit construction having consumed draws 0 and 1 —
is 3/4, giving phase 2π·(3/4) = 3π/2 whose sine is −1; every other draw
is 0. -/
def hOracle : ℕ → ℝ := fun k => if k = 2 then 3 / 4 else 0

theorem sin_hOracle_phase : Real.sin (2 * Real.pi * hOracle 2) = -1 := by
  have h1 : hOracle 2 = 3 / 4 := by norm_num [hOracle]
  have h2 : 2 * Real.pi * (3 / 4 : ℝ) = Real.pi + Real.pi / 2 := by ring
  rw [h1, h2, Real.sin_add, Real.sin_pi, Real.cos_pi, Real.sin_pi_div_two,
    Real.cos_pi_div_two]
  ring

theorem gsum_00 : globalEntanglementSum [0, 0] = 1 := by
  rw [globalEntanglementSum]
  simp only [List.length_cons, List.length_nil]
  norm_num

theorem C4_gate_eval :
    applyGate hOracle 2 ⟨GateType.H, 0, none, none⟩ ⟨[0, 0], false, 0, decoherenceFactor⟩ =
      (.ok (),
        ⟨[0, 0], true, 1,
          decoherenceFactor * (1 + Real.sqrt (1 - decoherenceFactor ^ 2)) *
            Real.exp (-(1e-9) / T2) * (1 - thermalNoise)⟩, 4) := by
  have hv : validateGateOperation ⟨[0, 0], false, 0, decoherenceFactor⟩
      ⟨GateType.H, 0, none, none⟩ = none := by
    rw [validateGateOperation]
    norm_num
  rw [applyGate, hv]
  simp only [dispatchGate, hadamardGate, calculateWaveFunction, applyDecoherenceEffects,
    updateSystemEntanglement, sin_hOracle_phase, List.length_cons, List.length_nil,
    gsum_00]
  norm_num [hOracle, QuantumState.mk.injEq, Prod.mk.injEq]

/-- C4 counterexample: construct a 2-qubit processor with the draw stream
hOracle, apply H to qubit 0 (phase 3π/2, zero fluctuation draw), then
measure(): the returned confidence equals the unclamped coherence
decoherenceFactor³·(1 + √(1 − decoherenceFactor²)) ≈ 1.13, strictly above 1 —
so not every component of the result lies within [0,1]. -/
theorem C4_counterexample :
    1 < ((measure hOracle
        (applyGate hOracle (mkQuantumProcessor 2 hOracle 0).2 ⟨GateType.H, 0, none, none⟩
          (mkQuantumProcessor 2 hOracle 0).1).2.2
        (applyGate hOracle (mkQuantumProcessor 2 hOracle 0).2 ⟨GateType.H, 0, none, none⟩
          (mkQuantumProcessor 2 hOracle 0).1).2.1).1).confidence := by
  have hmk2 : mkQuantumProcessor 2 hOracle 0 = (⟨[0, 0], false, 0, decoherenceFactor⟩, 2) := by
    rw [mkQuantumProcessor_eval]
    norm_num [List.replicate]
  rw [hmk2]
  dsimp only
  rw [C4_gate_eval]
  dsimp only
  simp only [measure, applyDecoherenceEffects]
  have key : decoherenceFactor * (1 + Real.sqrt (1 - decoherenceFactor ^ 2)) *
      Real.exp (-(1e-9) / T2) * (1 - thermalNoise) * Real.exp (-(1e-9) / T2) *
      (1 - thermalNoise) =
      decoherenceFactor ^ 3 * (1 + Real.sqrt (1 - decoherenceFactor ^ 2)) := by
    rw [decoherenceFactor]
    ring
  rw [key]
  exact pump_gt_one decoherenceFactor decoherenceFactor_ge decoherenceFactor_lt_one

theorem measureAux_bounds (r : ℕ → ℝ) (c : ℝ) :
    ∀ (qs : List ℝ) (k : ℕ), (∀ q ∈ qs, 0 ≤ q ∧ q ≤ 1) →
      ∀ q ∈ (measureAux r c qs k).1, 0 ≤ q ∧ q ≤ 1 := by
  intro qs
  induction qs with
  | nil => intro k _ q hq; simp [measureAux] at hq
  | cons a qs ih =>
    intro k h q hq
    simp only [measureAux, List.mem_cons] at hq
    rcases hq with hq | hq
    · subst hq
      split_ifs with hu
      · exact ⟨by norm_num, le_refl 1⟩
      · exact h a (List.mem_cons_self a qs)
    · exact ih _ (fun x hx => h x (List.mem_cons_of_mem a hx)) q hq

theorem fidelity_ratio_pos :
    0 < temperature * boltzmannConstant / (planckConstant * 1e9) := by
  rw [temperature, boltzmannConstant, planckConstant]
  positivity

theorem fidelity_ratio_lt_one :
    temperature * boltzmannConstant / (planckConstant * 1e9) < 1 := by
  rw [temperature, boltzmannConstant, planckConstant, div_lt_one (by norm_num)]
  norm_num

/-- C4 (amended): on the freshly constructed processor (any qubit count
N ≥ 1 and any draw streams), measure() returns a ProcessingResult whose
qubit scalars, probability and confidence all lie within [0,1].  The claim
as stated — over every reachable state — fails: confidence is the unclamped
live coherence, which an H gate can push above 1 (see the counterexample
with its sin(phase) = −1 draw). -/
theorem C4_measure_fresh (n : ℕ) (r rm : ℕ → ℝ) (k km : ℕ) (h : 1 ≤ n) :
    (∀ q ∈ ((measure rm km (mkQuantumProcessor n r k).1).1).state.qubits,
        0 ≤ q ∧ q ≤ 1) ∧
      0 ≤ ((measure rm km (mkQuantumProcessor n r k).1).1).probability ∧
      ((measure rm km (mkQuantumProcessor n r k).1).1).probability ≤ 1 ∧
      0 ≤ ((measure rm km (mkQuantumProcessor n r k).1).1).confidence ∧
      ((measure rm km (mkQuantumProcessor n r k).1).1).confidence ≤ 1 := by
  rw [mkQuantumProcessor_eval]
  simp only [measure, applyDecoherenceEffects, calculateMeasurementFidelity]
  have hd2 : decoherenceFactor * Real.exp (-(1e-9) / T2) * (1 - thermalNoise) =
      decoherenceFactor * decoherenceFactor := by
    rw [decoherenceFactor]
    ring
  rw [hd2]
  have h0 := decoherenceFactor_pos
  have h1 := decoherenceFactor_lt_one
  have hc0 : 0 < decoherenceFactor * decoherenceFactor := mul_pos h0 h0
  have hc1 : decoherenceFactor * decoherenceFactor < 1 := by nlinarith
  have hr0 := fidelity_ratio_pos
  have hr1 := fidelity_ratio_lt_one
  have henv : environmentalNoise = 0.001 := rfl
  refine ⟨?_, ?_, ?_, le_of_lt hc0, le_of_lt hc1⟩
  · apply measureAux_bounds
    intro q hq
    have hq0 := List.eq_of_mem_replicate hq
    subst hq0
    exact ⟨le_refl 0, by norm_num⟩
  · apply mul_nonneg (mul_nonneg (le_of_lt hc0) (by rw [henv]; norm_num))
    linarith
  · have hab : decoherenceFactor * decoherenceFactor * (1 - environmentalNoise) ≤ 1 := by
      rw [henv]
      nlinarith
    nlinarith [mul_pos hc0 (show (0:ℝ) < 1 - environmentalNoise by rw [henv]; norm_num)]

/-- C4 witness: the amended statement at N = 1 with zero draw streams
(probability and confidence components). -/
theorem C4_witness :
    0 ≤ ((measure (fun _ => (0:ℝ)) 0
        (mkQuantumProcessor 1 (fun _ => (0:ℝ)) 0).1).1).probability ∧
      ((measure (fun _ => (0:ℝ)) 0
        (mkQuantumProcessor 1 (fun _ => (0:ℝ)) 0).1).1).probability ≤ 1 ∧
      0 ≤ ((measure (fun _ => (0:ℝ)) 0
        (mkQuantumProcessor 1 (fun _ => (0:ℝ)) 0).1).1).confidence ∧
      ((measure (fun _ => (0:ℝ)) 0
        (mkQuantumProcessor 1 (fun _ => (0:ℝ)) 0).1).1).confidence ≤ 1 :=
  (C4_measure_fresh 1 (fun _ => 0) (fun _ => 0) 0 0 (le_refl 1)).2

/-! ### QuantumAI trainer (src/lib/ai/quantum-ai.ts, class QuantumAI) -/

/-- The model kinds of `AIModel` (src/types/quantum.ts). -/
inductive ModelKind
  | quantum | classical | hybrid
deriving DecidableEq

/-- `AIModel` of src/types/quantum.ts. -/
structure AIModel where
  type : ModelKind
  parameters : ℝ
  layers : ℕ
  accuracy : ℝ
  loss : ℝ

/-- `maxQubits` of class QuantumAI. -/
def maxQubits : ℕ := 50

/-- `coherenceTime` of class QuantumAI (100 µs). -/
def coherenceTime : ℝ := 100e-6

/-- `calculateQuantumParameters`:
floor(L·maxQubits·(1 − exp(−L / coherenceTime))). -/
def calculateQuantumParameters (layers : ℕ) : ℤ :=
  ⌊(layers : ℝ) * (maxQubits : ℝ) * (1 - Real.exp (-(layers : ℝ) / coherenceTime))⌋

/-- `calculateParameters`: L·1000 plus the quantum term. -/
def calculateParameters (layers : ℕ) : ℝ :=
  (layers : ℝ) * 1000 + (calculateQuantumParameters layers : ℝ)

/-- `generateHiddenLayerStructure`:
max(32, floor(256·exp(−i/L) + 64·sin(iπ/L))). -/
def generateHiddenLayerStructure (layers : ℕ) : List ℤ :=
  (List.range layers).map fun i =>
    max 32 ⌊256 * Real.exp (-(i : ℝ) / (layers : ℝ)) +
      64 * Real.sin ((i : ℝ) * Real.pi / (layers : ℝ))⌋

/-- The entanglement patterns of `QuantumLayer`. -/
inductive EntanglementPattern
  | linear | full | circular
deriving DecidableEq

/-- The gate labels of `baseGates`. -/
inductive TrainerGate
  | H | CNOT | RX | RY | RZ
deriving DecidableEq

/-- `baseGates` of `generateQuantumGateSequence`. -/
def baseGates : List TrainerGate := [.H, .CNOT, .RX, .RY, .RZ]

/-- `QuantumLayer` of class QuantumAI. -/
structure QuantumLayer where
  qubits : ℕ
  entanglementPattern : EntanglementPattern
  gateSequence : List TrainerGate

/-- The draw loop of `generateQuantumGateSequence`: one draw per slot,
selecting baseGates[floor(U·5)] (every in-range draw hits a real index; the
`getD` default only covers draws outside [0,1)). -/
def generateGateDraws (r : ℕ → ℝ) : ℕ → ℕ → List TrainerGate × ℕ
  | 0, k => ([], k)
  | m + 1, k =>
    let idx := (⌊r k * 5⌋).toNat
    let rest := generateGateDraws r m (k + 1)
    (baseGates.getD idx .H :: rest.1, rest.2)

/-- `Math.floor(5 * Math.log2(layer + 2))` as the sequence length. -/
def sequenceLength (layer : ℕ) : ℕ :=
  (⌊5 * Real.logb 2 ((layer : ℝ) + 2)⌋).toNat

/-- `generateQuantumGateSequence` for a layer index. -/
def generateQuantumGateSequence (r : ℕ → ℝ) (k layer : ℕ) : List TrainerGate × ℕ :=
  generateGateDraws r (sequenceLength layer) k

/-- `Math.min(maxQubits, Math.floor(10 * Math.log2(i + 2)))`. -/
def layerQubits (i : ℕ) : ℕ :=
  min maxQubits (⌊10 * Real.logb 2 ((i : ℝ) + 2)⌋).toNat

/-- The entanglement-pattern cycle of `initializeQuantumLayers`. -/
def layerPattern (i : ℕ) : EntanglementPattern :=
  if i % 3 = 0 then .full else if i % 2 = 0 then .circular else .linear

/-- The layer loop of `initializeQuantumLayers`. -/
def initQuantumLayersAux (r : ℕ → ℝ) : ℕ → ℕ → ℕ → List QuantumLayer × ℕ
  | 0, _, k => ([], k)
  | m + 1, i, k =>
    let gs := generateQuantumGateSequence r k i
    let rest := initQuantumLayersAux r m (i + 1) gs.2
    (⟨layerQubits i, layerPattern i, gs.1⟩ :: rest.1, rest.2)

/-- `initializeQuantumLayers`. -/
def initQuantumLayers (r : ℕ → ℝ) (k layers : ℕ) : List QuantumLayer × ℕ :=
  initQuantumLayersAux r layers 0 k

/-- `HybridOptimizer` of class QuantumAI; the two inert optimizer-name
labels carry no behavior and are not modelled. -/
structure HybridOptimizer where
  learningRate : ℝ
  momentum : ℝ
  quantumNoiseThreshold : ℝ

/-- `initializeHybridOptimizer`. -/
def initHybridOptimizer (layers : ℕ) : HybridOptimizer :=
  ⟨0.001 * Real.exp (-(layers : ℝ) / 10), 0.9, 0.01⟩

/-- One register of `initializeQuantumRegisters`: qubit-many pairs
(cos θ, sin θ) with θ = U·π, one draw per pair. -/
def mkRegister (r : ℕ → ℝ) : ℕ → ℕ → List ℝ × ℕ
  | 0, k => ([], k)
  | m + 1, k =>
    let theta := r k * Real.pi
    let rest := mkRegister r m (k + 1)
    (Real.cos theta :: Real.sin theta :: rest.1, rest.2)

/-- `initializeQuantumRegisters`: one register per layer, stored densely by
layer position (the source keys a Map by the dense layer index). -/
def initQuantumRegistersAux (r : ℕ → ℝ) : List QuantumLayer → ℕ → List (List ℝ) × ℕ
  | [], k => ([], k)
  | l :: ls, k =>
    let reg := mkRegister r l.qubits k
    let rest := initQuantumRegistersAux r ls reg.2
    (reg.1 :: rest.1, rest.2)

/-- The mutable state of class QuantumAI. -/
structure QuantumAI where
  model : AIModel
  hiddenLayers : List ℤ
  quantumLayers : List QuantumLayer
  optimizer : HybridOptimizer
  quantumMemory : List (List ℝ)

/-- The QuantumAI constructor. -/
def mkQuantumAI (layers : ℕ) (r : ℕ → ℝ) (k : ℕ) : QuantumAI × ℕ :=
  let ql := initQuantumLayers r k layers
  let regs := initQuantumRegistersAux r ql.1 ql.2
  (⟨⟨.hybrid, calculateParameters layers, layers, 0, 1.0⟩,
    generateHiddenLayerStructure layers, ql.1, initHybridOptimizer layers, regs.1⟩,
    regs.2)

/-- `applyQuantumGate` of class QuantumAI: H mixes and rescales, RX rotates
by the error angle, every other label scales by (1 − error). -/
def applyQuantumGateAI (gate : TrainerGate) (re im error : ℝ) : ℝ × ℝ :=
  match gate with
  | .H => ((re + im) / Real.sqrt 2 * (1 - error), (re - im) / Real.sqrt 2 * (1 - error))
  | .RX => (re * Real.cos error - im * Real.sin error,
      im * Real.cos error + re * Real.sin error)
  | _ => (re * (1 - error), im * (1 - error))

/-- Apply one gate across all (real, imag) slot pairs of a register. -/
def applyGatePairs (gate : TrainerGate) (error : ℝ) : List ℝ → List ℝ
  | re :: im :: rest =>
    (applyQuantumGateAI gate re im error).1 :: (applyQuantumGateAI gate re im error).2 ::
      applyGatePairs gate error rest
  | l => l

/-- The gate loop of `simulateQuantumOperations`: per gate draw one error
U·noiseThreshold, accumulate it into the loss, transform the register. -/
def simulateQuantumOperations (r : ℕ → ℝ) (threshold : ℝ) :
    List TrainerGate → List ℝ → ℕ → ℝ → ℝ × List ℝ × ℕ
  | [], reg, k, loss => (loss, reg, k)
  | g :: gs, reg, k, loss =>
    let gateError := r k * threshold
    simulateQuantumOperations r threshold gs (applyGatePairs g gateError reg) (k + 1)
      (loss + gateError)

/-- `applyQuantumNoiseReduction`: scale the whole register by
(1 − noiseThreshold·exp(−epoch/L)). -/
def applyQuantumNoiseReduction (threshold : ℝ) (register : List ℝ)
    (epoch layers : ℕ) : List ℝ :=
  register.map fun x => x * (1 - threshold * Real.exp (-(epoch : ℝ) / (layers : ℝ)))

/-- The layer loop of `trainEpoch`; a layer with no register is skipped, as
in the source (`if (!quantumRegister) return`). -/
def trainEpochLayers (r : ℕ → ℝ) (threshold : ℝ) (epoch layers : ℕ) :
    List QuantumLayer → List (List ℝ) → ℕ → ℝ × List (List ℝ) × ℕ
  | [], _, k => (0, [], k)
  | _ :: ls, [], k =>
    let rest := trainEpochLayers r threshold epoch layers ls [] k
    (rest.1, rest.2.1, rest.2.2)
  | l :: ls, reg :: regs, k =>
    let sim := simulateQuantumOperations r threshold l.gateSequence reg k 0
    let reg2 := applyQuantumNoiseReduction threshold sim.2.1 epoch layers
    let rest := trainEpochLayers r threshold epoch layers ls regs sim.2.2
    (sim.1 + rest.1, reg2 :: rest.2.1, rest.2.2)

/-- `trainEpoch`: run every layer, write registers back, return the summed
layer losses divided by the layer count. -/
def trainEpoch (r : ℕ → ℝ) (st : QuantumAI) (epoch : ℕ) (k : ℕ) :
    ℝ × QuantumAI × ℕ :=
  let res := trainEpochLayers r st.optimizer.quantumNoiseThreshold epoch
    st.model.layers st.quantumLayers st.quantumMemory k
  (res.1 / (st.quantumLayers.length : ℝ), { st with quantumMemory := res.2.1 }, res.2.2)

/-- `updateModelMetrics`: accuracy += (1 − accuracy)·0.1·exp(−epochLoss)·
(1 − epoch/(2L)), clamped above by 1; loss := epochLoss·exp(−epoch/L) +
noiseThreshold. -/
def updateModelMetrics (st : QuantumAI) (epochLoss : ℝ) (epoch : ℕ) : QuantumAI :=
  let accuracyImprovement := (1 - st.model.accuracy) * 0.1 * Real.exp (-epochLoss) *
    (1 - (epoch : ℝ) / ((st.model.layers : ℝ) * 2))
  let newModel : AIModel :=
    { st.model with
      accuracy := min 1 (st.model.accuracy + accuracyImprovement)
      loss := epochLoss * Real.exp (-(epoch : ℝ) / (st.model.layers : ℝ)) +
        st.optimizer.quantumNoiseThreshold }
  { st with model := newModel }

/-- The epoch loop of `train`, by recursion on the remaining epochs. -/
def trainFrom (r : ℕ → ℝ) : ℕ → ℕ → QuantumAI → ℕ → QuantumAI × ℕ
  | 0, _, st, k => (st, k)
  | fuel + 1, epoch, st, k =>
    let res := trainEpoch r st epoch k
    trainFrom r fuel (epoch + 1) (updateModelMetrics res.2.1 res.1 epoch) res.2.2

/-- `train(epochs)`. -/
def train (r : ℕ → ℝ) (epochs : ℕ) (st : QuantumAI) (k : ℕ) : QuantumAI × ℕ :=
  trainFrom r epochs 0 st k

/-- `getModelStats`: a copy of the model snapshot (returned unclamped). -/
def getModelStats (st : QuantumAI) : AIModel := st.model

/-! ### C9: accuracy bounds of the trainer -/

theorem trainEpoch_model (r : ℕ → ℝ) (st : QuantumAI) (e k : ℕ) :
    ((trainEpoch r st e k).2.1).model = st.model := rfl

theorem trainEpoch_layers_eq (r : ℕ → ℝ) (st : QuantumAI) (e k : ℕ) :
    ((trainEpoch r st e k).2.1).quantumLayers = st.quantumLayers := rfl

theorem updateModelMetrics_layers (st : QuantumAI) (l : ℝ) (e : ℕ) :
    ((updateModelMetrics st l e).model).layers = st.model.layers := rfl

theorem updateModelMetrics_accuracy_bounds (st : QuantumAI) (l : ℝ) (e : ℕ)
    (ha0 : 0 ≤ st.model.accuracy) (ha1 : st.model.accuracy ≤ 1)
    (hL : 0 < st.model.layers) (he : e ≤ 2 * st.model.layers) :
    0 ≤ ((updateModelMetrics st l e).model).accuracy ∧
      ((updateModelMetrics st l e).model).accuracy ≤ 1 := by
  simp only [updateModelMetrics]
  refine ⟨le_min (by norm_num) ?_, min_le_left _ _⟩
  have hexp : 0 < Real.exp (-l) := Real.exp_pos _
  have hLr : (0 : ℝ) < (st.model.layers : ℝ) := by exact_mod_cast hL
  have her : (e : ℝ) ≤ (st.model.layers : ℝ) * 2 := by
    have : (e : ℝ) ≤ 2 * (st.model.layers : ℝ) := by exact_mod_cast he
    linarith
  have hfac : 0 ≤ 1 - (e : ℝ) / ((st.model.layers : ℝ) * 2) := by
    rw [sub_nonneg, div_le_one (by linarith)]
    exact her
  have hprod : 0 ≤ (1 - st.model.accuracy) * 0.1 * Real.exp (-l) *
      (1 - (e : ℝ) / ((st.model.layers : ℝ) * 2)) := by
    apply mul_nonneg (mul_nonneg (mul_nonneg (by linarith) (by norm_num)) hexp.le) hfac
  linarith

theorem trainFrom_accuracy_bounds (r : ℕ → ℝ) (L : ℕ) (hL : 1 ≤ L) :
    ∀ (fuel epoch : ℕ) (st : QuantumAI) (k : ℕ),
      st.model.layers = L → 0 ≤ st.model.accuracy → st.model.accuracy ≤ 1 →
      epoch + fuel ≤ 2 * L + 1 →
      0 ≤ ((trainFrom r fuel epoch st k).1).model.accuracy ∧
        ((trainFrom r fuel epoch st k).1).model.accuracy ≤ 1 := by
  intro fuel
  induction fuel with
  | zero => intro epoch st k _ h0 h1 _; exact ⟨h0, h1⟩
  | succ fuel ih =>
    intro epoch st k hlay h0 h1 hfe
    rw [trainFrom]
    have hmods := trainEpoch_model r st epoch k
    have hb := updateModelMetrics_accuracy_bounds ((trainEpoch r st epoch k).2.1)
      ((trainEpoch r st epoch k).1) epoch (by rw [hmods]; exact h0)
      (by rw [hmods]; exact h1) (by rw [hmods, hlay]; omega)
      (by rw [hmods, hlay]; omega)
    refine ih (epoch + 1) _ _ ?_ hb.1 hb.2 (by omega)
    rw [updateModelMetrics_layers, hmods, hlay]

/-- C9 (amended): for every layer count L ≥ 1 and epoch count E ≤ 2L + 1,
after constructing a QuantumAI trainer with L layers and calling train(E),
the accuracy reported by getModelStats() lies within [0,1], for every
outcome of the random draws.  The bound on E is necessary: once the epoch
index exceeds 2L, the factor (1 − epoch/(2L)) in the accuracy update turns
negative and the unclamped-below accuracy can fall under 0 (see the
counterexample with L = 1, E = 6). -/
theorem C9_accuracy_bounds (L E : ℕ) (r : ℕ → ℝ) (k : ℕ) (hL : 1 ≤ L)
    (hE : E ≤ 2 * L + 1) :
    0 ≤ (getModelStats
        (train r E (mkQuantumAI L r k).1 (mkQuantumAI L r k).2).1).accuracy ∧
      (getModelStats
        (train r E (mkQuantumAI L r k).1 (mkQuantumAI L r k).2).1).accuracy ≤ 1 := by
  rw [getModelStats, train]
  exact trainFrom_accuracy_bounds r L hL E 0 (mkQuantumAI L r k).1
    (mkQuantumAI L r k).2 rfl (le_refl 0) (by show (0:ℝ) ≤ 1; norm_num) (by omega)

/-- C9 witness: the amended statement at L = 1, E = 3 with the zero draw
stream. -/
theorem C9_witness :
    0 ≤ (getModelStats
        (train (fun _ => (0:ℝ)) 3 (mkQuantumAI 1 (fun _ => (0:ℝ)) 0).1
          (mkQuantumAI 1 (fun _ => (0:ℝ)) 0).2).1).accuracy ∧
      (getModelStats
        (train (fun _ => (0:ℝ)) 3 (mkQuantumAI 1 (fun _ => (0:ℝ)) 0).1
          (mkQuantumAI 1 (fun _ => (0:ℝ)) 0).2).1).accuracy ≤ 1 :=
  C9_accuracy_bounds 1 3 (fun _ => 0) 0 (le_refl 1) (by norm_num)

theorem simulate_zero_loss (threshold : ℝ) :
    ∀ (gs : List TrainerGate) (reg : List ℝ) (k : ℕ) (loss : ℝ),
      (simulateQuantumOperations (fun _ => 0) threshold gs reg k loss).1 = loss := by
  intro gs
  induction gs with
  | nil => intro reg k loss; rfl
  | cons g gs ih =>
    intro reg k loss
    rw [simulateQuantumOperations, ih]
    norm_num

theorem trainEpochLayers_zero_loss (threshold : ℝ) (epoch layers : ℕ) :
    ∀ (ls : List QuantumLayer) (regs : List (List ℝ)) (k : ℕ),
      (trainEpochLayers (fun _ => 0) threshold epoch layers ls regs k).1 = 0 := by
  intro ls
  induction ls with
  | nil => intro regs k; cases regs <;> rfl
  | cons l ls ih =>
    intro regs k
    cases regs with
    | nil => rw [trainEpochLayers]; exact ih [] _
    | cons reg regs =>
      rw [trainEpochLayers, simulate_zero_loss, ih]
      norm_num

theorem trainEpoch_zero_loss (st : QuantumAI) (e k : ℕ) :
    (trainEpoch (fun _ => 0) st e k).1 = 0 := by
  rw [trainEpoch]
  rw [trainEpochLayers_zero_loss]
  norm_num

/-- The accuracy recurrence induced by zero epoch losses on a 1-layer
model. -/
def accChain : ℕ → ℕ → ℝ → ℝ
  | _, 0, a => a
  | e, f + 1, a => accChain (e + 1) f (min 1 (a + (1 - a) * 0.1 * (1 - (e : ℝ) / 2)))

theorem trainFrom_zero_accuracy :
    ∀ (fuel epoch : ℕ) (st : QuantumAI) (k : ℕ), st.model.layers = 1 →
      ((trainFrom (fun _ => 0) fuel epoch st k).1).model.accuracy =
        accChain epoch fuel st.model.accuracy := by
  intro fuel
  induction fuel with
  | zero => intro e st k _; rfl
  | succ fuel ih =>
    intro e st k hlay
    rw [trainFrom, accChain]
    rw [ih (e + 1) _ _ (by rw [updateModelMetrics_layers, trainEpoch_model, hlay])]
    congr 1
    simp only [updateModelMetrics, trainEpoch_model, trainEpoch_zero_loss]
    rw [hlay]
    norm_num [Real.exp_zero]

/-- C9 counterexample: with L = 1 layer, E = 6 epochs and the all-zero draw
stream (every gate error 0, so every epoch loss is 0), the reported accuracy
after train(6) is 0.012475 + 0.987525·0.1·(1 − 5/2) = −0.13565375 < 0 — the
accuracy update is clamped above by 1 but not below by 0, and its factor
(1 − epoch/(2L)) is negative from epoch 3 on. -/
theorem C9_counterexample :
    (getModelStats (train (fun _ => 0) 6 (mkQuantumAI 1 (fun _ => 0) 0).1
      (mkQuantumAI 1 (fun _ => 0) 0).2).1).accuracy < 0 := by
  rw [getModelStats, train, trainFrom_zero_accuracy 6 0 _ _ rfl]
  show accChain 0 6 0 < 0
  norm_num [accChain, min_def]

end

end Obsidian
